import Mathlib

/-!
Shallow embedding of `Lib/_android_support.py`: the Android log stream
adapters `TextLogStream` and `BinaryLogStream`.

Modelling conventions:
* Python `str` values are lists of Unicode code points (`List Nat`).
* Python `bytes` values are lists of byte values (`List Nat`, each < 256).
* The platform call `android_log_write(prio, tag, payload)` is recorded as a
  `LogCall`; an operation returns the list of platform calls it performed, in
  order, together with its Python return value.
* `str.encode(encoding, errors)` is modelled by a per-character encoding
  function `encodeChar : Nat → List Nat` stored in the stream state (UTF-8
  style codecs encode each code point independently, and error handlers
  substitute bytes per unencodable code point), concatenated over the chunk.
  `utf8EncodeChar` is the default `encoding="UTF-8"` instantiation.
-/

namespace AndroidSupport

set_option maxRecDepth 100000

/-- `MAX_BYTES_PER_WRITE = 4000` from `_android_support.py`. -/
def MAX_BYTES_PER_WRITE : Nat := 4000

/-- `MAX_CHARS_PER_WRITE = MAX_BYTES_PER_WRITE // 4` from `_android_support.py`. -/
def MAX_CHARS_PER_WRITE : Nat := MAX_BYTES_PER_WRITE / 4

/-- The code points Python `str.splitlines` treats as line boundaries:
`\n \v \f \r \x1c \x1d \x1e \x85    `. -/
def isLineBoundary (c : Nat) : Bool :=
  c == 10 || c == 11 || c == 12 || c == 13 || c == 28 || c == 29 || c == 30 ||
    c == 133 || c == 8232 || c == 8233

/-- `s.splitlines(keepends=True)`: split after each line boundary, keeping the
boundary; a `\r\n` pair counts as a single line ending; a trailing fragment
without a boundary forms a final line; the empty string yields no lines.
`acc` holds the (reversed) code points of the line being built. -/
def splitlinesAux : List Nat → List Nat → List (List Nat)
  | [], acc => if acc.isEmpty then [] else [acc.reverse]
  | 13 :: 10 :: rest, acc => (acc.reverse ++ [13, 10]) :: splitlinesAux rest []
  | c :: rest, acc =>
    if isLineBoundary c then
      (acc.reverse ++ [c]) :: splitlinesAux rest []
    else
      splitlinesAux rest (c :: acc)

/-- `s.splitlines(keepends=True)` on a whole string. -/
def splitlines (s : List Nat) : List (List Nat) := splitlinesAux s []

/-- UTF-8 encoding of one code point (the `encoding="UTF-8"` default set in
`TextLogStream.__init__`). -/
def utf8EncodeChar (c : Nat) : List Nat :=
  if c < 0x80 then [c]
  else if c < 0x800 then [0xC0 + c / 64, 0x80 + c % 64]
  else if c < 0x10000 then [0xE0 + c / 4096, 0x80 + c / 64 % 64, 0x80 + c % 64]
  else [0xF0 + c / 262144, 0x80 + c / 4096 % 64, 0x80 + c / 64 % 64, 0x80 + c % 64]

/-- `b.replace(b"\x00", b"\xc0\x80")` from `BinaryLogStream.write`: every NUL
byte becomes the two-byte modified-UTF-8 sequence `0xC0 0x80`. -/
def escapeNulls : List Nat → List Nat
  | [] => []
  | 0 :: rest => 0xC0 :: 0x80 :: escapeNulls rest
  | b :: rest => b :: escapeNulls rest

/-- One invocation of the platform primitive `android_log_write(prio, tag, payload)`. -/
structure LogCall where
  prio : Nat
  tag : String
  payload : List Nat
deriving DecidableEq, Repr

/-- `BinaryLogStream`: immutable `(android_log_write, prio, tag)` triple; the
callback itself is the log-call recorder. -/
structure BinaryLogStream where
  prio : Nat
  tag : String
deriving DecidableEq, Repr

/-- `BinaryLogStream.write(b)` on an actual bytes value: if `b` is non-empty,
one platform call with the NUL-escaped payload; returns `len(b)`. -/
def BinaryLogStream.write (st : BinaryLogStream) (b : List Nat) :
    List LogCall × Nat :=
  (if b.isEmpty then [] else [⟨st.prio, st.tag, escapeNulls b⟩], b.length)

/-- `TextLogStream` state: the wrapped `BinaryLogStream`, the configured
encoding (per character, see module comment), the `write_through` flag, and
the pending buffer `_pending_bytes` / `_pending_bytes_count`. -/
structure TextLogStream where
  buffer : BinaryLogStream
  encodeChar : Nat → List Nat
  write_through : Bool
  pending_bytes : List (List Nat)
  pending_bytes_count : Nat

/-- `s.encode(self.encoding, self.errors)` for a chunk. -/
def TextLogStream.encode (st : TextLogStream) (s : List Nat) : List Nat :=
  (s.map st.encodeChar).flatten

/-- `TextLogStream.flush`: forward the concatenation of `self._pending_bytes` to the
binary stream, then clear the buffer and zero the count. -/
def TextLogStream.flush (st : TextLogStream) : TextLogStream × List LogCall :=
  ({ st with pending_bytes := [], pending_bytes_count := 0 },
   (st.buffer.write st.pending_bytes.flatten).1)

/-- `TextLogStream.flush` when the platform call may raise: `fails` says
whether `android_log_write` raises on a given (escaped) payload.  The call
`self.buffer.write(...)` happens before `self._pending_bytes.clear()` and
`self._pending_bytes_count = 0`, so if it raises, neither mutation has run
and the state is returned unchanged.  The `Bool` result records whether the
exception propagated. -/
def TextLogStream.flushFallible (fails : List Nat → Bool) (st : TextLogStream) :
    TextLogStream × List LogCall × Bool :=
  let payload := st.pending_bytes.flatten
  if !payload.isEmpty && fails (escapeNulls payload) then
    (st, [], true)
  else
    ({ st with pending_bytes := [], pending_bytes_count := 0 },
     (st.buffer.write payload).1, false)

/-- `TextLogStream._write_chunk(s)`: encode, flush first if appending would
push the count above `MAX_BYTES_PER_WRITE`, append, then flush if
`write_through`, the encoded chunk ends with `b"\n"`, or the count now
exceeds `MAX_BYTES_PER_WRITE`. -/
def TextLogStream.writeChunk (st : TextLogStream) (s : List Nat) :
    TextLogStream × List LogCall :=
  let b := st.encode s
  let p1 :=
    if st.pending_bytes_count + b.length > MAX_BYTES_PER_WRITE then st.flush
    else (st, [])
  let st1 := p1.1
  let st2 := { st1 with
    pending_bytes := st1.pending_bytes ++ [b],
    pending_bytes_count := st1.pending_bytes_count + b.length }
  let p2 :=
    if st2.write_through || b.getLast? == some 10 ||
        st2.pending_bytes_count > MAX_BYTES_PER_WRITE then st2.flush
    else (st2, [])
  (p2.1, p1.2 ++ p2.2)

/-- The `while line:` loop of `TextLogStream.write`: slice off
`MAX_CHARS_PER_WRITE`-character chunks until the line is exhausted. -/
def TextLogStream.writeLine (st : TextLogStream) (line : List Nat) :
    TextLogStream × List LogCall :=
  if h : line.isEmpty then (st, [])
  else
    let p := st.writeChunk (line.take MAX_CHARS_PER_WRITE)
    let q := p.1.writeLine (line.drop MAX_CHARS_PER_WRITE)
    (q.1, p.2 ++ q.2)
termination_by line.length
decreasing_by
  simp only [List.length_drop]
  cases line with
  | nil => simp at h
  | cons a l => simp [MAX_CHARS_PER_WRITE, MAX_BYTES_PER_WRITE]; omega

/-- The `for line in s.splitlines(keepends=True):` loop of `TextLogStream.write`. -/
def TextLogStream.writeLines : TextLogStream → List (List Nat) →
    TextLogStream × List LogCall
  | st, [] => (st, [])
  | st, l :: ls =>
    let p := st.writeLine l
    let q := p.1.writeLines ls
    (q.1, p.2 ++ q.2)

/-- `TextLogStream.write(s)` on an actual `str`: split into lines, write each
line in chunks, return `len(s)`. -/
def TextLogStream.write (st : TextLogStream) (s : List Nat) :
    TextLogStream × List LogCall × Nat :=
  let p := st.writeLines (splitlines s)
  (p.1, p.2, s.length)

/-- Evaluation twin of `writeLine`, structurally recursive on a fuel list:
each loop iteration consumes at least one character of the line, so any fuel
list at least as long as the line suffices (`writeLineGo_eq` below); the
fuel-exhausted branch is unreachable under that bound.  Used only to compute
`writeLine` inside proofs. -/
def TextLogStream.writeLineGo : TextLogStream → List Nat → List Nat →
    TextLogStream × List LogCall
  | st, [], _ => (st, [])
  | st, _ :: _, [] => (st, [])
  | st, c :: rest, _ :: fuel =>
    let p := st.writeChunk ((c :: rest).take MAX_CHARS_PER_WRITE)
    let q := p.1.writeLineGo ((c :: rest).drop MAX_CHARS_PER_WRITE) fuel
    (q.1, p.2 ++ q.2)

/-- Evaluation twin of `writeLines`, feeding each line to `writeLineGo` as its
own fuel. -/
def TextLogStream.writeLinesGo : TextLogStream → List (List Nat) →
    TextLogStream × List LogCall
  | st, [] => (st, [])
  | st, l :: ls =>
    let p := st.writeLineGo l l
    let q := p.1.writeLinesGo ls
    (q.1, p.2 ++ q.2)

/-- A caller-visible operation on a `TextLogStream`: a `write` or an explicit
`flush`. -/
inductive Op where
  | write (s : List Nat)
  | flush
deriving DecidableEq, Repr

/-- Run a sequence of operations, collecting every platform call in order. -/
def runOps : TextLogStream → List Op → TextLogStream × List LogCall
  | st, [] => (st, [])
  | st, Op.write s :: ops =>
    let p := st.write s
    let q := runOps p.1 ops
    (q.1, p.2.1 ++ q.2)
  | st, Op.flush :: ops =>
    let p := st.flush
    let q := runOps p.1 ops
    (q.1, p.2 ++ q.2)

/-- Python values that can reach the dynamic `isinstance`/`memoryview` checks
in the two `write` methods.  The payload of the byte-backed variants is their
flat byte view. -/
inductive PyValue where
  | pyStr (s : List Nat)
  | pyBytes (b : List Nat)
  | pyByteArray (b : List Nat)
  | pyMemoryView (b : List Nat)
  | pyNone
  | pyInt (n : Int)
deriving DecidableEq, Repr

/-- `type(v).__name__`. -/
def PyValue.typeName : PyValue → String
  | .pyStr _ => "str"
  | .pyBytes _ => "bytes"
  | .pyByteArray _ => "bytearray"
  | .pyMemoryView _ => "memoryview"
  | .pyNone => "NoneType"
  | .pyInt _ => "int"

/-- `isinstance(v, str)`. -/
def PyValue.isStr : PyValue → Bool
  | .pyStr _ => true
  | _ => false

/-- `bytes(memoryview(v))`: succeeds exactly for objects supporting the buffer
protocol as a flat byte sequence (`bytes`, `bytearray`, `memoryview`);
`memoryview` raises `TypeError` for the rest. -/
def PyValue.asBytes : PyValue → Option (List Nat)
  | .pyBytes b => some b
  | .pyByteArray b => some b
  | .pyMemoryView b => some b
  | _ => none

/-- Whether `v` can be viewed as a flat byte sequence. -/
def PyValue.isBytesLike (v : PyValue) : Bool := (v.asBytes).isSome

/-- `TextLogStream.write` including the leading `isinstance(s, str)` check:
a non-`str` argument raises `TypeError` naming the offending type, before any
platform call. -/
def TextLogStream.writeChecked (st : TextLogStream) (v : PyValue) :
    Except String (TextLogStream × List LogCall × Nat) :=
  match v with
  | .pyStr s => .ok (st.write s)
  | _ => .error ("write() argument must be str, not " ++ v.typeName)

/-- `BinaryLogStream.write` including the `type(b) is not bytes` /
`bytes(memoryview(b))` conversion: an argument without a flat byte view
raises `TypeError` naming the offending type, before any platform call. -/
def BinaryLogStream.writeChecked (st : BinaryLogStream) (v : PyValue) :
    Except String (List LogCall × Nat) :=
  match v with
  | .pyBytes b => .ok (st.write b)
  | _ =>
    match v.asBytes with
    | some b => .ok (st.write b)
    | none => .error ("write() argument must be bytes-like, not " ++ v.typeName)

/-! Concrete instances used by the boundary scenarios: a fresh
`TextLogStream(android_log_write, prio=4, tag="python.stdout")` with the
default UTF-8 encoding, `write_through` off (resp. on), and nothing pending. -/

/-- A fresh buffered UTF-8 text stream. -/
def utf8Stream : TextLogStream :=
  ⟨⟨4, "python.stdout"⟩, utf8EncodeChar, false, [], 0⟩

/-- A fresh UTF-8 text stream with `write_through` enabled. -/
def utf8StreamWT : TextLogStream :=
  ⟨⟨4, "python.stdout"⟩, utf8EncodeChar, true, [], 0⟩

/-- The code points of `"foobar"`. -/
def fb : List Nat := [102, 111, 111, 98, 97, 114]

/-- The code points of `("foobar" * 700) + "\n"` (4201 characters). -/
def inputC2 : List Nat := (List.replicate 700 fb).flatten ++ [10]

/-- The code points of `("foobar" * 666) + "foob"` (4000 characters). -/
def rec1C2 : List Nat := (List.replicate 666 fb).flatten ++ [102, 111, 111, 98]

/-- The code points of `"ar" + ("foobar" * 33)` (200 characters). -/
def rec2Spec : List Nat := [97, 114] ++ (List.replicate 33 fb).flatten

/-- The code points of `("\x00" * 2001) + "\n"`. -/
def inputC1 : List Nat := List.replicate 2001 0 ++ [10]

/-- The code points of `"hello\r\n"`. -/
def helloCRLF : List Nat := [104, 101, 108, 108, 111, 13, 10]

/-- The code points of `"hello\n"`. -/
def helloLF : List Nat := [104, 101, 108, 108, 111, 10]

/-- The buffer invariant of `TextLogStream`: `_pending_bytes_count` equals the
total length of the blocks in `_pending_bytes`. -/
def pendingInv (st : TextLogStream) : Prop :=
  st.pending_bytes_count = (st.pending_bytes.map List.length).sum

/-- Every character of the configured encoding takes at most 4 bytes (true of
the default strict UTF-8 codec). -/
def encBounded (st : TextLogStream) : Prop :=
  ∀ c, (st.encodeChar c).length ≤ 4

/-- The strengthened invariant for the byte-ceiling claim: buffer consistency,
count at most `MAX_BYTES_PER_WRITE`, and a 4-byte-per-character encoding. -/
def capInv (st : TextLogStream) : Prop :=
  pendingInv st ∧ st.pending_bytes_count ≤ MAX_BYTES_PER_WRITE ∧ encBounded st

/-- A platform call whose payload is the NUL-escaping of at most
`MAX_BYTES_PER_WRITE` raw bytes. -/
def callOk (call : LogCall) : Prop :=
  ∃ raw, call.payload = escapeNulls raw ∧ raw.length ≤ MAX_BYTES_PER_WRITE

/-- A UTF-8 stream with the two byte blocks `"hi"` pending (used for the
failed-flush scenario). -/
def pendingStream : TextLogStream :=
  ⟨⟨4, "python.stdout"⟩, utf8EncodeChar, false, [[104, 105]], 2⟩

/-! ### Basic properties of the byte-level helpers -/

theorem writeLineGo_eq (st : TextLogStream) (line : List Nat) :
    ∀ fuel : List Nat, line.length ≤ fuel.length →
      st.writeLineGo line fuel = st.writeLine line := by
  induction st, line using TextLogStream.writeLine.induct with
  | case1 st line hemp =>
    intro fuel _
    rw [TextLogStream.writeLine]
    simp only [hemp, dite_true]
    rw [List.isEmpty_iff] at hemp
    subst hemp
    cases fuel <;> rfl
  | case2 st line hemp p ih =>
    intro fuel hn
    cases line with
    | nil => simp at hemp
    | cons c rest =>
      cases fuel with
      | nil => simp at hn
      | cons f fuel =>
        rw [TextLogStream.writeLine]
        simp only [hemp, dite_false]
        rw [TextLogStream.writeLineGo]
        have hm : ((c :: rest).drop MAX_CHARS_PER_WRITE).length ≤ fuel.length := by
          simp only [List.length_drop, List.length_cons] at *
          have : 0 < MAX_CHARS_PER_WRITE := by decide
          omega
        rw [ih fuel hm]
        simp

theorem writeLinesGo_eq (ls : List (List Nat)) (st : TextLogStream) :
    st.writeLinesGo ls = st.writeLines ls := by
  induction ls generalizing st with
  | nil => rfl
  | cons l ls ih =>
    simp only [TextLogStream.writeLinesGo, TextLogStream.writeLines]
    rw [writeLineGo_eq st l l (le_refl _), ih]

/-- `write` expressed through the computable twins; used to evaluate concrete
scenarios. -/
theorem write_eq_go (st : TextLogStream) (s : List Nat) :
    st.write s =
      ((st.writeLinesGo (splitlines s)).1, (st.writeLinesGo (splitlines s)).2,
        s.length) := by
  rw [TextLogStream.write, writeLinesGo_eq]


theorem escapeNulls_eq (b : List Nat) :
    escapeNulls b = (b.map fun x => if x == 0 then [0xC0, 0x80] else [x]).flatten := by
  induction b with
  | nil => rfl
  | cons x rest ih =>
    match x with
    | 0 => simpa [escapeNulls] using ih
    | Nat.succ n => simpa [escapeNulls] using ih

theorem escapeNulls_append (a b : List Nat) :
    escapeNulls (a ++ b) = escapeNulls a ++ escapeNulls b := by
  simp [escapeNulls_eq]

theorem escapeNulls_length (b : List Nat) :
    (escapeNulls b).length ≤ 2 * b.length := by
  induction b with
  | nil => simp [escapeNulls]
  | cons x rest ih =>
    match x with
    | 0 => simp only [escapeNulls, List.length_cons]; omega
    | Nat.succ n => simp only [escapeNulls, List.length_cons]; omega

theorem utf8EncodeChar_length (c : Nat) : (utf8EncodeChar c).length ≤ 4 := by
  unfold utf8EncodeChar
  split
  · simp
  · split
    · simp
    · split <;> simp

theorem encode_append (st : TextLogStream) (a b : List Nat) :
    st.encode (a ++ b) = st.encode a ++ st.encode b := by
  simp [TextLogStream.encode]

theorem encode_length_le (st : TextLogStream)
    (h4 : ∀ c, (st.encodeChar c).length ≤ 4) (s : List Nat) :
    (st.encode s).length ≤ 4 * s.length := by
  induction s with
  | nil => simp [TextLogStream.encode]
  | cons c rest ih =>
    simp only [TextLogStream.encode, List.map_cons, List.flatten_cons,
      List.length_append, List.length_cons] at ih ⊢
    have := h4 c
    omega

/-! ### The pending-buffer invariants -/

theorem encBounded_utf8 : encBounded utf8Stream :=
  fun c => utf8EncodeChar_length c

theorem pendingInv_flush (st : TextLogStream) : pendingInv (st.flush).1 := by
  simp [pendingInv, TextLogStream.flush]

theorem capInv_flush (st : TextLogStream) (h : encBounded st) :
    capInv (st.flush).1 :=
  ⟨pendingInv_flush st, by simp [TextLogStream.flush], fun c => h c⟩

theorem flush_callOk (st : TextLogStream) (h : pendingInv st)
    (hle : st.pending_bytes_count ≤ MAX_BYTES_PER_WRITE) :
    ∀ call ∈ (st.flush).2, callOk call := by
  intro call hc
  simp only [TextLogStream.flush, BinaryLogStream.write] at hc
  split at hc
  · simp at hc
  · simp only [List.mem_singleton] at hc
    subst hc
    exact ⟨st.pending_bytes.flatten, rfl, by
      rw [List.length_flatten, ← h] at *
      exact hle⟩

theorem pendingInv_writeChunk (st : TextLogStream) (s : List Nat)
    (h : pendingInv st) : pendingInv (st.writeChunk s).1 := by
  unfold TextLogStream.writeChunk
  simp only []
  split
  · split
    · exact pendingInv_flush _
    · simp only [pendingInv, TextLogStream.flush, List.map_append, List.sum_append,
        pendingInv_flush] at *
      simp
  · split
    · exact pendingInv_flush _
    · simp only [pendingInv, List.map_append, List.sum_append] at *
      simp [h]

theorem writeChunk_cap (st : TextLogStream) (s : List Nat)
    (h : capInv st) (hs : s.length ≤ MAX_CHARS_PER_WRITE) :
    capInv (st.writeChunk s).1 ∧ ∀ call ∈ (st.writeChunk s).2, callOk call := by
  obtain ⟨hinv, hle, henc⟩ := h
  have hb : (st.encode s).length ≤ MAX_BYTES_PER_WRITE := by
    calc (st.encode s).length ≤ 4 * s.length := encode_length_le st henc s
    _ ≤ 4 * MAX_CHARS_PER_WRITE := by omega
    _ = MAX_BYTES_PER_WRITE := by decide
  unfold TextLogStream.writeChunk
  simp only []
  split
  · -- pre-flush taken
    constructor
    · split
      · exact capInv_flush _ henc
      · refine ⟨?_, ?_, fun c => henc c⟩
        · simp [pendingInv, TextLogStream.flush]
        · simpa [TextLogStream.flush] using hb
    · intro call hc
      simp only [List.mem_append] at hc
      rcases hc with hc | hc
      · exact flush_callOk st hinv hle call hc
      · split at hc
        · refine flush_callOk _ ?_ ?_ call hc
          · simp [pendingInv, TextLogStream.flush]
          · simpa [TextLogStream.flush] using hb
        · simp at hc
  · -- no pre-flush
    rename_i hnot
    simp only [gt_iff_lt, not_lt] at hnot
    constructor
    · split
      · exact capInv_flush _ henc
      · refine ⟨?_, ?_, fun c => henc c⟩
        · simp only [pendingInv, List.map_append, List.sum_append] at *
          simp [hinv]
        · simpa using hnot
    · intro call hc
      simp only [List.mem_append] at hc
      rcases hc with hc | hc
      · simp at hc
      · split at hc
        · refine flush_callOk _ ?_ ?_ call hc
          · simp only [pendingInv, List.map_append, List.sum_append] at *
            simp [hinv]
          · simpa using hnot
        · simp at hc

theorem pendingInv_writeLine (st : TextLogStream) (line : List Nat) :
    pendingInv st → pendingInv (st.writeLine line).1 := by
  induction st, line using TextLogStream.writeLine.induct with
  | case1 st line hemp =>
    intro h
    rw [TextLogStream.writeLine]
    simpa [hemp] using h
  | case2 st line hemp p ih =>
    intro h
    rw [TextLogStream.writeLine]
    simp only [hemp, dite_false]
    exact ih (pendingInv_writeChunk st _ h)

theorem writeLine_cap (st : TextLogStream) (line : List Nat) :
    capInv st →
      capInv (st.writeLine line).1 ∧ ∀ call ∈ (st.writeLine line).2, callOk call := by
  induction st, line using TextLogStream.writeLine.induct with
  | case1 st line hemp =>
    intro h
    rw [TextLogStream.writeLine]
    simp only [hemp, dite_true]
    exact ⟨h, by simp⟩
  | case2 st line hemp p ih =>
    intro h
    have htk : (line.take MAX_CHARS_PER_WRITE).length ≤ MAX_CHARS_PER_WRITE := by
      simp [List.length_take]
    have hchunk := writeChunk_cap st (line.take MAX_CHARS_PER_WRITE) h htk
    have hrest := ih hchunk.1
    rw [TextLogStream.writeLine]
    simp only [hemp, dite_false]
    refine ⟨hrest.1, ?_⟩
    intro call hc
    rcases List.mem_append.mp hc with hc2 | hc2
    · exact hchunk.2 call hc2
    · exact hrest.2 call hc2

theorem pendingInv_writeLines (ls : List (List Nat)) (st : TextLogStream) :
    pendingInv st → pendingInv (st.writeLines ls).1 := by
  induction ls generalizing st with
  | nil => intro h; simpa [TextLogStream.writeLines] using h
  | cons l ls ih =>
    intro h
    simp only [TextLogStream.writeLines]
    exact ih _ (pendingInv_writeLine st l h)

theorem writeLines_cap (ls : List (List Nat)) (st : TextLogStream) :
    capInv st →
      capInv (st.writeLines ls).1 ∧ ∀ call ∈ (st.writeLines ls).2, callOk call := by
  induction ls generalizing st with
  | nil => intro h; exact ⟨h, by simp [TextLogStream.writeLines]⟩
  | cons l ls ih =>
    intro h
    have hline := writeLine_cap st l h
    have hrest := ih _ hline.1
    simp only [TextLogStream.writeLines]
    refine ⟨hrest.1, ?_⟩
    intro call hc
    simp only [List.mem_append] at hc
    rcases hc with hc | hc
    · exact hline.2 call hc
    · exact hrest.2 call hc

theorem pendingInv_write (st : TextLogStream) (s : List Nat) (h : pendingInv st) :
    pendingInv (st.write s).1 :=
  pendingInv_writeLines (splitlines s) st h

theorem write_cap (st : TextLogStream) (s : List Nat) (h : capInv st) :
    capInv (st.write s).1 ∧ ∀ call ∈ (st.write s).2.1, callOk call :=
  writeLines_cap (splitlines s) st h

theorem runOps_cap (ops : List Op) (st : TextLogStream) :
    capInv st →
      capInv (runOps st ops).1 ∧ ∀ call ∈ (runOps st ops).2, callOk call := by
  induction ops generalizing st with
  | nil => intro h; exact ⟨h, by simp [runOps]⟩
  | cons op ops ih =>
    intro h
    cases op with
    | write s =>
      have hw := write_cap st s h
      have hrest := ih _ hw.1
      simp only [runOps]
      refine ⟨hrest.1, ?_⟩
      intro call hc
      simp only [List.mem_append] at hc
      rcases hc with hc | hc
      · exact hw.2 call hc
      · exact hrest.2 call hc
    | flush =>
      have hf : capInv (st.flush).1 := capInv_flush st h.2.2
      have hcalls := flush_callOk st h.1 h.2.1
      have hrest := ih _ hf
      simp only [runOps]
      refine ⟨hrest.1, ?_⟩
      intro call hc
      simp only [List.mem_append] at hc
      rcases hc with hc | hc
      · exact hcalls call hc
      · exact hrest.2 call hc

/-! ### Equations for symbolic evaluation -/

theorem splitlinesAux_cons_nb (c : Nat) (rest acc : List Nat)
    (h : isLineBoundary c = false) :
    splitlinesAux (c :: rest) acc = splitlinesAux rest (c :: acc) := by
  have h13 : c ≠ 13 := by
    intro e; subst e; simp [isLineBoundary] at h
  rw [splitlinesAux.eq_3 acc c rest (fun rest2 hc13 _ => absurd hc13 h13)]
  simp [h]

theorem splitlinesAux_lf (rest acc : List Nat) :
    splitlinesAux (10 :: rest) acc = (acc.reverse ++ [10]) :: splitlinesAux rest [] := by
  rcases rest with _ | ⟨r, rest⟩ <;> simp [splitlinesAux, isLineBoundary]

theorem splitlinesAux_crlf (rest acc : List Nat) :
    splitlinesAux (13 :: 10 :: rest) acc =
      (acc.reverse ++ [13, 10]) :: splitlinesAux rest [] := rfl

theorem splitlinesAux_bf_lf (t : List Nat)
    (hbf : ∀ c ∈ t, isLineBoundary c = false) :
    ∀ acc, splitlinesAux (t ++ [10]) acc = [acc.reverse ++ (t ++ [10])] := by
  induction t with
  | nil =>
    intro acc
    simp [splitlinesAux_lf, splitlinesAux]
  | cons c t ih =>
    intro acc
    have hc : isLineBoundary c = false := hbf c (List.mem_cons_self c t)
    rw [List.cons_append, splitlinesAux_cons_nb c _ _ hc,
      ih (fun d hd => hbf d (List.mem_cons_of_mem c hd))]
    simp

theorem splitlinesAux_bf_crlf (t : List Nat)
    (hbf : ∀ c ∈ t, isLineBoundary c = false) :
    ∀ acc, splitlinesAux (t ++ [13, 10]) acc = [acc.reverse ++ (t ++ [13, 10])] := by
  induction t with
  | nil =>
    intro acc
    simp [splitlinesAux_crlf, splitlinesAux]
  | cons c t ih =>
    intro acc
    have hc : isLineBoundary c = false := hbf c (List.mem_cons_self c t)
    rw [List.cons_append, splitlinesAux_cons_nb c _ _ hc,
      ih (fun d hd => hbf d (List.mem_cons_of_mem c hd))]
    simp

/-- A chunk of code points that all encode to a single byte equal to the code
point (the ASCII case of UTF-8) encodes to itself. -/
theorem encode_ascii (st : TextLogStream) (hu : st.encodeChar = utf8EncodeChar) :
    ∀ s : List Nat, (∀ c ∈ s, c < 128) → st.encode s = s := by
  intro s hs
  induction s with
  | nil => rfl
  | cons c t ih =>
    have hc : c < 128 := hs c (List.mem_cons_self c t)
    have ht := ih fun d hd => hs d (List.mem_cons_of_mem c hd)
    simp only [TextLogStream.encode, List.map_cons, List.flatten_cons, hu] at ht ⊢
    rw [utf8EncodeChar, if_pos (by omega), ht]
    rfl

/-- NUL-escaping is the identity on NUL-free byte blocks. -/
theorem escapeNulls_id (l : List Nat) (h : ∀ b ∈ l, b ≠ 0) : escapeNulls l = l := by
  induction l with
  | nil => rfl
  | cons b t ih =>
    have hb : b ≠ 0 := h b (List.mem_cons_self b t)
    match b, hb with
    | Nat.succ n, _ =>
      simp only [escapeNulls]
      rw [ih fun d hd => h d (List.mem_cons_of_mem _ hd)]

theorem writeLine_nil (st : TextLogStream) : st.writeLine [] = (st, []) := by
  rw [TextLogStream.writeLine]
  simp

theorem writeLine_step (st : TextLogStream) (line : List Nat)
    (hne : line.isEmpty = false) :
    st.writeLine line =
      (((st.writeChunk (line.take MAX_CHARS_PER_WRITE)).1.writeLine
          (line.drop MAX_CHARS_PER_WRITE)).1,
       (st.writeChunk (line.take MAX_CHARS_PER_WRITE)).2 ++
         ((st.writeChunk (line.take MAX_CHARS_PER_WRITE)).1.writeLine
           (line.drop MAX_CHARS_PER_WRITE)).2) := by
  rw [TextLogStream.writeLine]
  simp [hne]

theorem writeLine_single (st : TextLogStream) (line : List Nat)
    (hne : line.isEmpty = false) (hlen : line.length ≤ MAX_CHARS_PER_WRITE) :
    st.writeLine line = st.writeChunk line := by
  rw [writeLine_step st line hne, List.take_of_length_le hlen,
    List.drop_eq_nil_of_le hlen, writeLine_nil]
  simp

theorem write_calls (st : TextLogStream) (s : List Nat) :
    (st.write s).2.1 = (st.writeLines (splitlines s)).2 := rfl

theorem writeLines_single (st : TextLogStream) (l : List Nat) :
    st.writeLines [l] = ((st.writeLine l).1, (st.writeLine l).2) := by
  simp [TextLogStream.writeLines]

/-- `_write_chunk` when nothing triggers a flush: the encoded chunk is simply
appended. -/
theorem writeChunk_append (st : TextLogStream) (s : List Nat)
    (hwt : st.write_through = false)
    (hle : st.pending_bytes_count + (st.encode s).length ≤ MAX_BYTES_PER_WRITE)
    (hnl : ((st.encode s).getLast? == some 10) = false) :
    st.writeChunk s =
      ({ st with pending_bytes := st.pending_bytes ++ [st.encode s],
                 pending_bytes_count :=
                   st.pending_bytes_count + (st.encode s).length }, []) := by
  unfold TextLogStream.writeChunk
  simp only []
  split
  · rename_i hgt
    exact absurd hgt (by omega)
  · split
    · rename_i hcond
      simp only [hwt, hnl, Bool.false_or, Bool.or_eq_true, decide_eq_true_eq] at hcond
      omega
    · simp

/-- `_write_chunk` when the encoded chunk overflows the pending buffer and
ends in a newline: flush the old buffer, append, then flush again. -/
theorem writeChunk_flush_append_flush (st : TextLogStream) (s : List Nat)
    (hover : st.pending_bytes_count + (st.encode s).length > MAX_BYTES_PER_WRITE)
    (hnl : (st.encode s).getLast? = some 10)
    (hpne : st.pending_bytes.flatten.isEmpty = false)
    (hbne : (st.encode s).isEmpty = false) :
    st.writeChunk s =
      ({ st with pending_bytes := [], pending_bytes_count := 0 },
       [⟨st.buffer.prio, st.buffer.tag, escapeNulls st.pending_bytes.flatten⟩,
        ⟨st.buffer.prio, st.buffer.tag, escapeNulls (st.encode s)⟩]) := by
  unfold TextLogStream.writeChunk
  simp only []
  split
  · split
    · rename_i hcond
      simp [TextLogStream.flush, BinaryLogStream.write, hpne, hbne]
    · rename_i hcond
      simp only [TextLogStream.flush, hnl, Bool.or_eq_true] at hcond
      simp at hcond
  · rename_i hgt
    exact absurd hover hgt

/-- `_write_chunk` of a newline-terminated chunk onto an empty buffer: append
then flush once. -/
theorem writeChunk_newline_empty (st : TextLogStream) (s : List Nat)
    (hp : st.pending_bytes = []) (hc : st.pending_bytes_count = 0)
    (hle : (st.encode s).length ≤ MAX_BYTES_PER_WRITE)
    (hnl : (st.encode s).getLast? = some 10)
    (hbne : (st.encode s).isEmpty = false) :
    st.writeChunk s =
      ({ st with pending_bytes := [], pending_bytes_count := 0 },
       [⟨st.buffer.prio, st.buffer.tag, escapeNulls (st.encode s)⟩]) := by
  unfold TextLogStream.writeChunk
  simp only []
  split
  · rename_i hgt
    rw [hc] at hgt
    exact absurd hgt (by omega)
  · split
    · rename_i hcond
      simp [TextLogStream.flush, BinaryLogStream.write, hp, hbne]
    · rename_i hcond
      simp only [hnl, Bool.or_eq_true] at hcond
      simp at hcond

theorem length_flatten_replicate (n : Nat) (l : List Nat) :
    ((List.replicate n l).flatten).length = n * l.length := by
  simp [List.length_flatten, List.map_replicate, List.sum_const_nat]

theorem mem_flatten_replicate (n : Nat) (l : List Nat) (c : Nat)
    (h : c ∈ (List.replicate n l).flatten) : c ∈ l := by
  obtain ⟨lx, hlx, hc⟩ := List.mem_flatten.mp h
  rwa [(List.mem_replicate.mp hlx).2] at hc

/-- `_write_chunk` of an all-ASCII chunk without a newline that fits in the
buffer, on a buffered UTF-8 stream: plain append. -/
theorem writeChunk_ascii_append (bls : BinaryLogStream) (pend : List (List Nat))
    (cnt : Nat) (s : List Nat)
    (hascii : ∀ c ∈ s, c < 128) (h10 : (10 : Nat) ∉ s)
    (hle : cnt + s.length ≤ MAX_BYTES_PER_WRITE) :
    TextLogStream.writeChunk ⟨bls, utf8EncodeChar, false, pend, cnt⟩ s =
      (⟨bls, utf8EncodeChar, false, pend ++ [s], cnt + s.length⟩, []) := by
  have henc : TextLogStream.encode ⟨bls, utf8EncodeChar, false, pend, cnt⟩ s = s :=
    encode_ascii _ rfl s hascii
  have hnl : ((TextLogStream.encode ⟨bls, utf8EncodeChar, false, pend, cnt⟩ s).getLast?
      == some 10) = false := by
    rw [henc]
    cases hg : s.getLast? with
    | none => rfl
    | some a =>
      have ha : a ∈ s := List.mem_of_mem_getLast? hg
      have hne : a ≠ 10 := fun e => h10 (e ▸ ha)
      simp [hne]
  rw [writeChunk_append _ _ rfl (by rw [henc]; exact hle) hnl, henc]

/-- `_write_chunk` of an all-ASCII newline-terminated chunk that overflows the
buffer, on a buffered UTF-8 stream: flush, append, flush again. -/
theorem writeChunk_ascii_overflow_newline (bls : BinaryLogStream)
    (pend : List (List Nat)) (cnt : Nat) (s : List Nat)
    (hascii : ∀ c ∈ s, c < 128)
    (hnl : s.getLast? = some 10)
    (hover : cnt + s.length > MAX_BYTES_PER_WRITE)
    (hpne : pend.flatten.isEmpty = false)
    (hbne : s.isEmpty = false) :
    TextLogStream.writeChunk ⟨bls, utf8EncodeChar, false, pend, cnt⟩ s =
      (⟨bls, utf8EncodeChar, false, [], 0⟩,
       [⟨bls.prio, bls.tag, escapeNulls pend.flatten⟩,
        ⟨bls.prio, bls.tag, escapeNulls s⟩]) := by
  have henc : TextLogStream.encode ⟨bls, utf8EncodeChar, false, pend, cnt⟩ s = s :=
    encode_ascii _ rfl s hascii
  rw [writeChunk_flush_append_flush _ _ (by rw [henc]; exact hover)
    (by rw [henc]; exact hnl) hpne (by rw [henc]; exact hbne), henc]

/-! ### The `("foobar" * 700) + "\n"` boundary scenario, computed symbolically -/

theorem fb_facts : ∀ c ∈ fb, isLineBoundary c = false ∧ c < 128 ∧ c ≠ 0 ∧ c ≠ 10 := by
  decide

theorem fbA_mem (c : Nat) (h : c ∈ (List.replicate 700 fb).flatten) : c ∈ fb :=
  mem_flatten_replicate 700 fb c h

theorem fbA_length : ((List.replicate 700 fb).flatten).length = 4200 := by
  rw [length_flatten_replicate]; rfl

theorem inputC2_eq : inputC2 = (List.replicate 700 fb).flatten ++ [10] := rfl

theorem splitlines_inputC2 : splitlines inputC2 = [inputC2] := by
  rw [inputC2_eq, splitlines,
    splitlinesAux_bf_lf _ (fun c hc => (fb_facts c (fbA_mem c hc)).1) []]
  simp only [List.reverse_nil, List.nil_append]

theorem fbA_split :
    (List.replicate 700 fb).flatten =
      (List.replicate 666 fb).flatten ++ (List.replicate 34 fb).flatten := by
  have h : List.replicate 700 fb = List.replicate 666 fb ++ List.replicate 34 fb :=
    List.replicate_add 666 34 fb
  rw [h, List.flatten_append]

theorem f666_length : ((List.replicate 666 fb).flatten).length = 3996 := by
  rw [length_flatten_replicate]; rfl

theorem rep34_eq : List.replicate 34 fb = fb :: List.replicate 33 fb := rfl

theorem take_4000_fbA : ((List.replicate 700 fb).flatten).take 4000 = rec1C2 := by
  rw [fbA_split,
    show (4000 : Nat) = ((List.replicate 666 fb).flatten).length + 4 by
      rw [f666_length],
    List.take_append, rep34_eq, List.flatten_cons,
    List.take_append_of_le_length (by decide)]
  rfl

theorem drop_4000_fbA :
    ((List.replicate 700 fb).flatten).drop 4000 = rec2Spec := by
  rw [fbA_split,
    show (4000 : Nat) = ((List.replicate 666 fb).flatten).length + 4 by
      rw [f666_length],
    List.drop_append, rep34_eq, List.flatten_cons,
    List.drop_append_of_le_length (by decide)]
  rfl

theorem take_add_fbA :
    ((List.replicate 700 fb).flatten).take 4000 =
      ((List.replicate 700 fb).flatten).take 1000 ++
        ((((List.replicate 700 fb).flatten).drop 1000).take 1000 ++
          ((((List.replicate 700 fb).flatten).drop 2000).take 1000 ++
            (((List.replicate 700 fb).flatten).drop 3000).take 1000)) := by
  have hdd1 : (((List.replicate 700 fb).flatten).drop 1000).drop 1000 =
      ((List.replicate 700 fb).flatten).drop 2000 :=
    List.drop_drop 1000 1000 ((List.replicate 700 fb).flatten)
  have hdd2 : (((List.replicate 700 fb).flatten).drop 2000).drop 1000 =
      ((List.replicate 700 fb).flatten).drop 3000 :=
    List.drop_drop 1000 2000 ((List.replicate 700 fb).flatten)
  have hta1 : (((List.replicate 700 fb).flatten).drop 2000).take 2000 =
      (((List.replicate 700 fb).flatten).drop 2000).take 1000 ++
        ((((List.replicate 700 fb).flatten).drop 2000).drop 1000).take 1000 :=
    List.take_add (((List.replicate 700 fb).flatten).drop 2000) 1000 1000
  have hta2 : (((List.replicate 700 fb).flatten).drop 1000).take 3000 =
      (((List.replicate 700 fb).flatten).drop 1000).take 1000 ++
        ((((List.replicate 700 fb).flatten).drop 1000).drop 1000).take 2000 :=
    List.take_add (((List.replicate 700 fb).flatten).drop 1000) 1000 2000
  have hta3 : ((List.replicate 700 fb).flatten).take 4000 =
      ((List.replicate 700 fb).flatten).take 1000 ++
        (((List.replicate 700 fb).flatten).drop 1000).take 3000 :=
    List.take_add ((List.replicate 700 fb).flatten) 1000 3000
  rw [hta3, hta2, hdd1, hta1, hdd2]

/-- The exact platform calls of the `("foobar" * 700) + "\n"` write on a
fresh buffered UTF-8 stream: a 4000-byte record then a 201-byte record that
keeps the trailing newline. -/
theorem foobarRecords :
    (utf8Stream.write inputC2).2.1 =
      [⟨4, "python.stdout", rec1C2⟩, ⟨4, "python.stdout", rec2Spec ++ [10]⟩] := by
  have hAlen := fbA_length
  -- membership helpers
  have hsub : ∀ (s : List Nat), (∀ c ∈ s, c ∈ fb) →
      (∀ c ∈ s, c < 128) ∧ (10 : Nat) ∉ s ∧ ∀ c ∈ s, c ≠ 0 := by
    intro s hs
    exact ⟨fun c hc => (fb_facts c (hs c hc)).2.1,
      fun h => (fb_facts 10 (hs 10 h)).2.2.2 rfl,
      fun c hc => (fb_facts c (hs c hc)).2.2.1⟩
  have hsubtd : ∀ m : Nat, ∀ c ∈ (((List.replicate 700 fb).flatten).drop m).take 1000, c ∈ fb :=
    fun m c hc => fbA_mem c (List.mem_of_mem_drop (List.mem_of_mem_take hc))
  have hsubt : ∀ c ∈ ((List.replicate 700 fb).flatten).take 1000, c ∈ fb :=
    fun c hc => fbA_mem c (List.mem_of_mem_take hc)
  -- chunk lengths
  have hl1 : (((List.replicate 700 fb).flatten).take 1000).length = 1000 := by
    rw [List.length_take, hAlen]
    omega
  have hlk : ∀ m : Nat, m + 1000 ≤ 4200 →
      ((((List.replicate 700 fb).flatten).drop m).take 1000).length = 1000 := by
    intro m hm
    rw [List.length_take, List.length_drop, hAlen]
    omega
  have hl5 : (((List.replicate 700 fb).flatten).drop 4000 ++ [10]).length = 201 := by
    rw [List.length_append, List.length_drop, hAlen]
    rfl
  -- the five chunk slices and the four line remainders
  have hc1 : inputC2.take 1000 = ((List.replicate 700 fb).flatten).take 1000 := by
    rw [inputC2_eq, List.take_append_of_le_length (by omega)]
  have hD1 : inputC2.drop 1000 =
      ((List.replicate 700 fb).flatten).drop 1000 ++ [10] := by
    rw [inputC2_eq, List.drop_append_of_le_length (by omega)]
  have hck : ∀ m : Nat, m + 1000 ≤ 4200 →
      ((((List.replicate 700 fb).flatten).drop m) ++ [10]).take 1000 =
        (((List.replicate 700 fb).flatten).drop m).take 1000 := by
    intro m hm
    rw [List.take_append_of_le_length (by rw [List.length_drop, hAlen]; omega)]
  have hDk : ∀ m : Nat, m + 1000 ≤ 4200 →
      ((((List.replicate 700 fb).flatten).drop m) ++ [10]).drop 1000 =
        (((List.replicate 700 fb).flatten).drop (m + 1000)) ++ [10] := by
    intro m hm
    rw [List.drop_append_of_le_length (by rw [List.length_drop, hAlen]; omega)]
    rw [show ((((List.replicate 700 fb).flatten).drop m).drop 1000 =
        ((List.replicate 700 fb).flatten).drop (m + 1000)) from
      List.drop_drop 1000 m _]
  have hc5 : ((((List.replicate 700 fb).flatten).drop 4000) ++ [10]).take 1000 =
      (((List.replicate 700 fb).flatten).drop 4000) ++ [10] :=
    List.take_of_length_le (by rw [hl5]; omega)
  -- non-emptiness of lines
  have hneA : ∀ (l : List Nat), inputC2 = l ++ [10] → inputC2.isEmpty = false := by
    intro l hl
    rw [hl]
    simp [List.isEmpty_eq_false]
  have hne : ∀ (l : List Nat), (l ++ [10]).isEmpty = false := by
    intro l
    simp [List.isEmpty_eq_false]
  -- the four append steps
  obtain ⟨asc1, h10c1, _⟩ := hsub _ hsubt
  obtain ⟨asc2, h10c2, _⟩ := hsub _ (hsubtd 1000)
  obtain ⟨asc3, h10c3, _⟩ := hsub _ (hsubtd 2000)
  obtain ⟨asc4, h10c4, _⟩ := hsub _ (hsubtd 3000)
  have s1 : TextLogStream.writeChunk
      ⟨⟨4, "python.stdout"⟩, utf8EncodeChar, false, [], 0⟩
      (((List.replicate 700 fb).flatten).take 1000) =
      (⟨⟨4, "python.stdout"⟩, utf8EncodeChar, false,
        [((List.replicate 700 fb).flatten).take 1000], 1000⟩, []) := by
    rw [writeChunk_ascii_append _ _ _ _ asc1 h10c1 (by rw [hl1]; decide)]
    simp only [hl1, List.nil_append, Nat.zero_add]
  have s2 : TextLogStream.writeChunk
      ⟨⟨4, "python.stdout"⟩, utf8EncodeChar, false,
        [((List.replicate 700 fb).flatten).take 1000], 1000⟩
      ((((List.replicate 700 fb).flatten).drop 1000).take 1000) =
      (⟨⟨4, "python.stdout"⟩, utf8EncodeChar, false,
        [((List.replicate 700 fb).flatten).take 1000,
         (((List.replicate 700 fb).flatten).drop 1000).take 1000], 2000⟩, []) := by
    rw [writeChunk_ascii_append _ _ _ _ asc2 h10c2
      (by rw [hlk 1000 (by omega)]; decide)]
    simp only [hlk 1000 (by omega), List.singleton_append,
      show (1000 : Nat) + 1000 = 2000 from rfl]
  have s3 : TextLogStream.writeChunk
      ⟨⟨4, "python.stdout"⟩, utf8EncodeChar, false,
        [((List.replicate 700 fb).flatten).take 1000,
         (((List.replicate 700 fb).flatten).drop 1000).take 1000], 2000⟩
      ((((List.replicate 700 fb).flatten).drop 2000).take 1000) =
      (⟨⟨4, "python.stdout"⟩, utf8EncodeChar, false,
        [((List.replicate 700 fb).flatten).take 1000,
         (((List.replicate 700 fb).flatten).drop 1000).take 1000,
         (((List.replicate 700 fb).flatten).drop 2000).take 1000], 3000⟩, []) := by
    rw [writeChunk_ascii_append _ _ _ _ asc3 h10c3
      (by rw [hlk 2000 (by omega)]; decide)]
    simp only [hlk 2000 (by omega), List.cons_append, List.nil_append,
      show (2000 : Nat) + 1000 = 3000 from rfl]
  have s4 : TextLogStream.writeChunk
      ⟨⟨4, "python.stdout"⟩, utf8EncodeChar, false,
        [((List.replicate 700 fb).flatten).take 1000,
         (((List.replicate 700 fb).flatten).drop 1000).take 1000,
         (((List.replicate 700 fb).flatten).drop 2000).take 1000], 3000⟩
      ((((List.replicate 700 fb).flatten).drop 3000).take 1000) =
      (⟨⟨4, "python.stdout"⟩, utf8EncodeChar, false,
        [((List.replicate 700 fb).flatten).take 1000,
         (((List.replicate 700 fb).flatten).drop 1000).take 1000,
         (((List.replicate 700 fb).flatten).drop 2000).take 1000,
         (((List.replicate 700 fb).flatten).drop 3000).take 1000], 4000⟩, []) := by
    rw [writeChunk_ascii_append _ _ _ _ asc4 h10c4
      (by rw [hlk 3000 (by omega)]; decide)]
    simp only [hlk 3000 (by omega), List.cons_append, List.nil_append,
      show (3000 : Nat) + 1000 = 4000 from rfl]
  -- the overflowing final chunk
  have hflat : ([((List.replicate 700 fb).flatten).take 1000,
      (((List.replicate 700 fb).flatten).drop 1000).take 1000,
      (((List.replicate 700 fb).flatten).drop 2000).take 1000,
      (((List.replicate 700 fb).flatten).drop 3000).take 1000] :
        List (List Nat)).flatten = ((List.replicate 700 fb).flatten).take 4000 := by
    simp only [List.flatten_cons, List.flatten_nil, List.append_nil]
    exact take_add_fbA.symm
  have asc5 : ∀ c ∈ (((List.replicate 700 fb).flatten).drop 4000) ++ [10], c < 128 := by
    intro c hc
    rcases List.mem_append.mp hc with h | h
    · exact (fb_facts c (fbA_mem c (List.mem_of_mem_drop h))).2.1
    · simp at h
      omega
  have hz1 : ∀ b ∈ ((List.replicate 700 fb).flatten).take 4000, b ≠ 0 :=
    fun b hb => (fb_facts b (fbA_mem b (List.mem_of_mem_take hb))).2.2.1
  have hz5 : ∀ b ∈ (((List.replicate 700 fb).flatten).drop 4000) ++ [10], b ≠ 0 := by
    intro b hb
    rcases List.mem_append.mp hb with h | h
    · exact (fb_facts b (fbA_mem b (List.mem_of_mem_drop h))).2.2.1
    · simp at h
      omega
  have hpne : (([((List.replicate 700 fb).flatten).take 1000,
      (((List.replicate 700 fb).flatten).drop 1000).take 1000,
      (((List.replicate 700 fb).flatten).drop 2000).take 1000,
      (((List.replicate 700 fb).flatten).drop 3000).take 1000] :
        List (List Nat)).flatten).isEmpty = false := by
    rw [hflat, List.isEmpty_eq_false]
    intro h
    have hh := congrArg List.length h
    rw [List.length_take, hAlen, List.length_nil] at hh
    omega
  have s5 : TextLogStream.writeChunk
      ⟨⟨4, "python.stdout"⟩, utf8EncodeChar, false,
        [((List.replicate 700 fb).flatten).take 1000,
         (((List.replicate 700 fb).flatten).drop 1000).take 1000,
         (((List.replicate 700 fb).flatten).drop 2000).take 1000,
         (((List.replicate 700 fb).flatten).drop 3000).take 1000], 4000⟩
      ((((List.replicate 700 fb).flatten).drop 4000) ++ [10]) =
      (⟨⟨4, "python.stdout"⟩, utf8EncodeChar, false, [], 0⟩,
       [⟨4, "python.stdout", rec1C2⟩, ⟨4, "python.stdout", rec2Spec ++ [10]⟩]) := by
    rw [writeChunk_ascii_overflow_newline _ _ _ _ asc5 (List.getLast?_concat _)
      (by rw [hl5]; decide) hpne (hne _)]
    rw [hflat, escapeNulls_id _ hz1, take_4000_fbA, escapeNulls_id _ hz5,
      drop_4000_fbA]
  -- assembling the while-loop
  have w4 : TextLogStream.writeLine
      ⟨⟨4, "python.stdout"⟩, utf8EncodeChar, false,
        [((List.replicate 700 fb).flatten).take 1000,
         (((List.replicate 700 fb).flatten).drop 1000).take 1000,
         (((List.replicate 700 fb).flatten).drop 2000).take 1000,
         (((List.replicate 700 fb).flatten).drop 3000).take 1000], 4000⟩
      ((((List.replicate 700 fb).flatten).drop 4000) ++ [10]) =
      (⟨⟨4, "python.stdout"⟩, utf8EncodeChar, false, [], 0⟩,
       [⟨4, "python.stdout", rec1C2⟩, ⟨4, "python.stdout", rec2Spec ++ [10]⟩]) := by
    rw [writeLine_single _ _ (hne _) (by rw [hl5]; decide), s5]
  have w3 : TextLogStream.writeLine
      ⟨⟨4, "python.stdout"⟩, utf8EncodeChar, false,
        [((List.replicate 700 fb).flatten).take 1000,
         (((List.replicate 700 fb).flatten).drop 1000).take 1000,
         (((List.replicate 700 fb).flatten).drop 2000).take 1000], 3000⟩
      ((((List.replicate 700 fb).flatten).drop 3000) ++ [10]) =
      (⟨⟨4, "python.stdout"⟩, utf8EncodeChar, false, [], 0⟩,
       [⟨4, "python.stdout", rec1C2⟩, ⟨4, "python.stdout", rec2Spec ++ [10]⟩]) := by
    rw [writeLine_step _ _ (hne _)]
    simp only [show MAX_CHARS_PER_WRITE = 1000 from rfl]
    rw [hck 3000 (by omega), hDk 3000 (by omega)]
    simp only [show (3000 : Nat) + 1000 = 4000 from rfl]
    simp only [s4, w4]
    simp only [List.nil_append]
  have w2 : TextLogStream.writeLine
      ⟨⟨4, "python.stdout"⟩, utf8EncodeChar, false,
        [((List.replicate 700 fb).flatten).take 1000,
         (((List.replicate 700 fb).flatten).drop 1000).take 1000], 2000⟩
      ((((List.replicate 700 fb).flatten).drop 2000) ++ [10]) =
      (⟨⟨4, "python.stdout"⟩, utf8EncodeChar, false, [], 0⟩,
       [⟨4, "python.stdout", rec1C2⟩, ⟨4, "python.stdout", rec2Spec ++ [10]⟩]) := by
    rw [writeLine_step _ _ (hne _)]
    simp only [show MAX_CHARS_PER_WRITE = 1000 from rfl]
    rw [hck 2000 (by omega), hDk 2000 (by omega)]
    simp only [show (2000 : Nat) + 1000 = 3000 from rfl]
    simp only [s3, w3]
    simp only [List.nil_append]
  have w1 : TextLogStream.writeLine
      ⟨⟨4, "python.stdout"⟩, utf8EncodeChar, false,
        [((List.replicate 700 fb).flatten).take 1000], 1000⟩
      ((((List.replicate 700 fb).flatten).drop 1000) ++ [10]) =
      (⟨⟨4, "python.stdout"⟩, utf8EncodeChar, false, [], 0⟩,
       [⟨4, "python.stdout", rec1C2⟩, ⟨4, "python.stdout", rec2Spec ++ [10]⟩]) := by
    rw [writeLine_step _ _ (hne _)]
    simp only [show MAX_CHARS_PER_WRITE = 1000 from rfl]
    rw [hck 1000 (by omega), hDk 1000 (by omega)]
    simp only [show (1000 : Nat) + 1000 = 2000 from rfl]
    simp only [s2, w2]
    simp only [List.nil_append]
  have w0 : utf8Stream.writeLine inputC2 =
      (⟨⟨4, "python.stdout"⟩, utf8EncodeChar, false, [], 0⟩,
       [⟨4, "python.stdout", rec1C2⟩, ⟨4, "python.stdout", rec2Spec ++ [10]⟩]) := by
    show TextLogStream.writeLine
      ⟨⟨4, "python.stdout"⟩, utf8EncodeChar, false, [], 0⟩ inputC2 = _
    rw [writeLine_step _ _ (hneA _ inputC2_eq)]
    simp only [show MAX_CHARS_PER_WRITE = 1000 from rfl]
    rw [hc1, hD1]
    simp only [s1, w1]
    simp only [List.nil_append]
  rw [write_calls, splitlines_inputC2, writeLines_single, w0]

theorem eq_of_take_drop (n : Nat) (l1 l2 : List Nat)
    (h1 : l1.take n = l2.take n) (h2 : l1.drop n = l2.drop n) : l1 = l2 := by
  rw [← List.take_append_drop n l1, ← List.take_append_drop n l2, h1, h2]

theorem eq_of_map_take_drop (n : Nat) :
    ∀ L R : List (List Nat),
      L.map (List.take n) = R.map (List.take n) →
      L.map (List.drop n) = R.map (List.drop n) → L = R
  | [], [], _, _ => rfl
  | [], _ :: _, h1, _ => by simp at h1
  | _ :: _, [], h1, _ => by simp at h1
  | l :: L, r :: R, h1, h2 => by
    simp only [List.map_cons, List.cons.injEq] at h1 h2
    rw [eq_of_take_drop n l r h1.1 h2.1, eq_of_map_take_drop n L R h1.2 h2.2]

/-! ### The claims -/

/-- C1 (amended): under a per-character encoding of at most 4 bytes (as with
the default strict UTF-8), every payload handed to `android_log_write` by any
sequence of `write`/`flush` operations is the NUL-escaping of a block of at
most `MAX_BYTES_PER_WRITE` bytes, and is therefore at most
`2 * MAX_BYTES_PER_WRITE` bytes as transmitted; the 4000-byte bound on the
transmitted (post-escaping) payload claimed by the spec does not hold (see
`payload_can_exceed_max_bytes`). -/
theorem payload_le_twice_max_bytes (st : TextLogStream) (ops : List Op)
    (hinv : pendingInv st)
    (hle : st.pending_bytes_count ≤ MAX_BYTES_PER_WRITE)
    (henc : ∀ c, (st.encodeChar c).length ≤ 4) :
    ∀ call ∈ (runOps st ops).2,
      (∃ raw, call.payload = escapeNulls raw ∧ raw.length ≤ MAX_BYTES_PER_WRITE) ∧
        call.payload.length ≤ 2 * MAX_BYTES_PER_WRITE := by
  intro call hc
  obtain ⟨raw, hpay, hraw⟩ := (runOps_cap ops st ⟨hinv, hle, henc⟩).2 call hc
  refine ⟨⟨raw, hpay, hraw⟩, ?_⟩
  rw [hpay]
  calc (escapeNulls raw).length ≤ 2 * raw.length := escapeNulls_length raw
    _ ≤ 2 * MAX_BYTES_PER_WRITE := by omega

/-- C1 witness: the amended bound instantiated on a fresh UTF-8 stream
performing one write and one flush. -/
theorem payload_le_twice_max_bytes_witness :
    pendingInv utf8Stream ∧
      utf8Stream.pending_bytes_count ≤ MAX_BYTES_PER_WRITE ∧
      (∀ c, (utf8Stream.encodeChar c).length ≤ 4) ∧
      ∀ call ∈ (runOps utf8Stream [Op.write [97, 10], Op.flush]).2,
        (∃ raw, call.payload = escapeNulls raw ∧ raw.length ≤ MAX_BYTES_PER_WRITE) ∧
          call.payload.length ≤ 2 * MAX_BYTES_PER_WRITE :=
  ⟨rfl, by decide, fun c => utf8EncodeChar_length c,
    payload_le_twice_max_bytes utf8Stream [Op.write [97, 10], Op.flush] rfl
      (by decide) fun c => utf8EncodeChar_length c⟩

/-- C1 counterexample: writing `("\x00" * 2001) + "\n"` to a fresh UTF-8
stream (default error policy) produces a single platform call whose
transmitted payload, after NUL-escaping, is 4003 bytes — above
`MAX_BYTES_PER_WRITE`. -/
theorem payload_can_exceed_max_bytes :
    ((utf8Stream.write inputC1).2.1.map LogCall.payload) =
        [(List.replicate 2001 ([0xC0, 0x80] : List Nat)).flatten ++ [10]] ∧
      ¬ (∀ call ∈ (utf8Stream.write inputC1).2.1,
          call.payload.length ≤ MAX_BYTES_PER_WRITE) := by
  have h1 : ((utf8Stream.write inputC1).2.1.map LogCall.payload) =
      [(List.replicate 2001 ([0xC0, 0x80] : List Nat)).flatten ++ [10]] := by
    rw [write_eq_go]
    exact eq_of_map_take_drop 2000 _ _ (eq_of_beq (by decide))
      (eq_of_beq (by decide))
  refine ⟨h1, ?_⟩
  intro hall
  rcases hcalls : (utf8Stream.write inputC1).2.1 with _ | ⟨c, rest⟩
  · rw [hcalls] at h1
    simp only [List.map_nil] at h1
    exact List.cons_ne_nil _ _ h1.symm
  · rw [hcalls] at h1 hall
    simp only [List.map_cons] at h1
    injection h1 with hcp hrest
    have hlen := hall c (List.mem_cons_self c rest)
    rw [hcp] at hlen
    simp only [List.length_append, List.length_flatten, List.map_replicate,
      List.sum_const_nat, List.length_cons, List.length_nil,
      MAX_BYTES_PER_WRITE] at hlen
    omega

/-- C2 (amended): writing `("foobar" * 700) + "\n"` to a fresh buffered UTF-8
stream produces exactly two platform records: the first containing
`("foobar" * 666) + "foob"` (4000 bytes), the second containing
`"ar" + ("foobar" * 33) + "\n"` (201 bytes — the line's terminating newline is
part of the payload, unlike the spec's 200-byte record). -/
theorem foobar_records_exact :
    ((utf8Stream.write inputC2).2.1.map LogCall.payload) =
      [rec1C2, rec2Spec ++ [10]] := by
  rw [foobarRecords]
  rfl

/-- C2 counterexample: the records are not the claimed
`[("foobar" * 666) + "foob", "ar" + ("foobar" * 33)]` — the second record
carries the trailing newline, so it has 201 bytes rather than 200. -/
theorem foobar_records_ne_spec :
    ((utf8Stream.write inputC2).2.1.map LogCall.payload) ≠ [rec1C2, rec2Spec] := by
  rw [foobarRecords]
  intro h
  simp only [List.map_cons, List.map_nil] at h
  injection h with h1 h
  injection h with h2 h
  have hl := congrArg List.length h2
  simp only [List.length_append, List.length_cons, List.length_nil] at hl
  omega

/-- C3: on every non-empty byte block, `BinaryLogStream.write` makes exactly
one platform call, at the configured priority and tag, whose payload is the
input with every NUL byte replaced by `0xC0 0x80`, and returns the length of
the original input. -/
theorem binary_write_single_call (bs : BinaryLogStream) (b : List Nat)
    (hb : b ≠ []) :
    bs.write b =
      ([⟨bs.prio, bs.tag,
          (b.map fun x => if x == 0 then [0xC0, 0x80] else [x]).flatten⟩],
        b.length) := by
  have hempty : b.isEmpty = false := List.isEmpty_eq_false.mpr hb
  rw [← escapeNulls_eq]
  simp [BinaryLogStream.write, hempty]

/-- C3 witness: the single escaped call on the block `[0x00, 0x61]`. -/
theorem binary_write_single_call_witness :
    ([0, 97] : List Nat) ≠ [] ∧
      BinaryLogStream.write ⟨4, "python.stdout"⟩ [0, 97] =
        ([⟨4, "python.stdout",
            (([0, 97] : List Nat).map fun x =>
              if x == 0 then [0xC0, 0x80] else [x]).flatten⟩], 2) :=
  ⟨by decide, binary_write_single_call ⟨4, "python.stdout"⟩ [0, 97] (by decide)⟩

/-- C4: `TextLogStream.write` returns the character count of its input and
`BinaryLogStream.write` returns the byte count of its input. -/
theorem write_returns_length (st : TextLogStream) (s : List Nat)
    (bs : BinaryLogStream) (b : List Nat) :
    (st.write s).2.2 = s.length ∧ (bs.write b).2 = b.length :=
  ⟨rfl, rfl⟩

/-- C5 (amended): for a line without internal line boundaries that fits one
chunk and the byte ceiling, writing it with a `"\r\n"` ending and writing it
with a `"\n"` ending each produce one record, identical except that the first
keeps the carriage return before the final newline: the payloads themselves
are not translated (see `crlf_records_ne_lf_records`); the records are
equivalent only in their displayed content, where the log viewer strips the
trailing `"\r\n"`/`"\n"`. -/
theorem crlf_line_records (t : List Nat)
    (hbf : ∀ c ∈ t, isLineBoundary c = false)
    (hchars : t.length + 2 ≤ MAX_CHARS_PER_WRITE)
    (hbytes : (utf8Stream.encode t).length + 2 ≤ MAX_BYTES_PER_WRITE) :
    ((utf8Stream.write (t ++ [13, 10])).2.1.map LogCall.payload) =
        [escapeNulls (utf8Stream.encode t) ++ [13, 10]] ∧
      ((utf8Stream.write (t ++ [10])).2.1.map LogCall.payload) =
        [escapeNulls (utf8Stream.encode t) ++ [10]] := by
  constructor
  · have hsplit : splitlines (t ++ [13, 10]) = [t ++ [13, 10]] := by
      rw [splitlines, splitlinesAux_bf_crlf t hbf []]
      simp only [List.reverse_nil, List.nil_append]
    have henc2 : utf8Stream.encode (t ++ [13, 10]) =
        utf8Stream.encode t ++ [13, 10] := by
      rw [encode_append, show utf8Stream.encode [13, 10] = [13, 10] from rfl]
    have hchunk := writeChunk_newline_empty utf8Stream (t ++ [13, 10]) rfl rfl
      (by rw [henc2, List.length_append]
          simp only [List.length_cons, List.length_nil]
          omega)
      (by rw [henc2, show utf8Stream.encode t ++ [13, 10] =
            (utf8Stream.encode t ++ [13]) ++ [10] by simp]
          exact List.getLast?_concat _)
      (by rw [henc2]; simp [List.isEmpty_eq_false])
    rw [write_calls, hsplit, writeLines_single,
      writeLine_single _ _ (by simp [List.isEmpty_eq_false])
        (by simp only [List.length_append, List.length_cons, List.length_nil]
            omega),
      hchunk]
    simp only [List.map_cons, List.map_nil]
    rw [henc2, escapeNulls_append, show escapeNulls [13, 10] = [13, 10] from rfl]
  · have hsplit : splitlines (t ++ [10]) = [t ++ [10]] := by
      rw [splitlines, splitlinesAux_bf_lf t hbf []]
      simp only [List.reverse_nil, List.nil_append]
    have henc2 : utf8Stream.encode (t ++ [10]) = utf8Stream.encode t ++ [10] := by
      rw [encode_append, show utf8Stream.encode [10] = [10] from rfl]
    have hchunk := writeChunk_newline_empty utf8Stream (t ++ [10]) rfl rfl
      (by rw [henc2, List.length_append]
          simp only [List.length_cons, List.length_nil]
          omega)
      (by rw [henc2]; exact List.getLast?_concat _)
      (by rw [henc2]; simp [List.isEmpty_eq_false])
    rw [write_calls, hsplit, writeLines_single,
      writeLine_single _ _ (by simp [List.isEmpty_eq_false])
        (by simp only [List.length_append, List.length_cons, List.length_nil]
            omega),
      hchunk]
    simp only [List.map_cons, List.map_nil]
    rw [henc2, escapeNulls_append, show escapeNulls [10] = [10] from rfl]

/-- C5 witness: the amended statement instantiated at `"hello"`. -/
theorem crlf_line_records_witness :
    ((utf8Stream.write ([104, 101, 108, 108, 111] ++ [13, 10])).2.1.map
        LogCall.payload) =
        [escapeNulls (utf8Stream.encode [104, 101, 108, 108, 111]) ++ [13, 10]] ∧
      ((utf8Stream.write ([104, 101, 108, 108, 111] ++ [10])).2.1.map
        LogCall.payload) =
        [escapeNulls (utf8Stream.encode [104, 101, 108, 108, 111]) ++ [10]] :=
  crlf_line_records [104, 101, 108, 108, 111] (by decide) (by decide) (by decide)

/-- C5 counterexample: writing `"hello\r\n"` transmits the bytes
`hello\r\n` unchanged, while writing the CRLF-normalized `"hello\n"`
transmits `hello\n`, so the two record sequences are not equal. -/
theorem crlf_records_ne_lf_records :
    ((utf8Stream.write helloCRLF).2.1.map LogCall.payload) =
        [[104, 101, 108, 108, 111, 13, 10]] ∧
      ((utf8Stream.write helloLF).2.1.map LogCall.payload) =
        [[104, 101, 108, 108, 111, 10]] ∧
      ((utf8Stream.write helloCRLF).2.1.map LogCall.payload) ≠
        ((utf8Stream.write helloLF).2.1.map LogCall.payload) := by
  refine ⟨?_, ?_, ?_⟩
  · rw [write_eq_go]; decide
  · rw [write_eq_go]; decide
  · rw [write_eq_go, write_eq_go]; decide

/-- C6: with `write_through` enabled, `_write_chunk` always leaves the
pending buffer empty (the chunk is flushed immediately after being appended),
and two sequential one-character writes each produce their own platform
record. -/
theorem write_through_flushes_each_chunk :
    (∀ (st : TextLogStream) (chunk : List Nat), st.write_through = true →
        (st.writeChunk chunk).1.pending_bytes = [] ∧
          (st.writeChunk chunk).1.pending_bytes_count = 0) ∧
      ((utf8StreamWT.write [97]).2.1.map LogCall.payload) = [[97]] ∧
      (((utf8StreamWT.write [97]).1.write [98]).2.1.map LogCall.payload) =
        [[98]] := by
  refine ⟨?_, ?_, ?_⟩
  · intro st chunk hwt
    unfold TextLogStream.writeChunk
    simp only []
    constructor <;>
      (split <;>
        (split
         · simp [TextLogStream.flush]
         · rename_i hcond
           exfalso
           simp [TextLogStream.flush, hwt] at hcond))
  · rw [write_eq_go]; decide
  · simp only [write_eq_go]; decide

/-- C6 witness: the flush-after-append property instantiated on a
`write_through` stream and a one-character chunk. -/
theorem write_through_flushes_each_chunk_witness :
    (utf8StreamWT.writeChunk [97]).1.pending_bytes = [] ∧
      (utf8StreamWT.writeChunk [97]).1.pending_bytes_count = 0 :=
  write_through_flushes_each_chunk.1 utf8StreamWT [97] rfl

/-- C7: if `_pending_bytes_count` equals the total length of `_pending_bytes`
before an operation, it still does after any `write` and after any `flush`. -/
theorem pending_count_invariant (st : TextLogStream) (s : List Nat)
    (h : pendingInv st) :
    pendingInv (st.write s).1 ∧ pendingInv (st.flush).1 :=
  ⟨pendingInv_write st s h, pendingInv_flush st⟩

/-- C7 witness: the invariant is preserved across a concrete write and flush
on a fresh stream. -/
theorem pending_count_invariant_witness :
    pendingInv utf8Stream ∧
      pendingInv (utf8Stream.write [97]).1 ∧ pendingInv (utf8Stream.flush).1 :=
  ⟨rfl, pending_count_invariant utf8Stream [97] rfl⟩

/-- C8: `TextLogStream.write` raises `TypeError` naming the offending type on
every non-`str` argument, and `BinaryLogStream.write` raises `TypeError`
naming the offending type on every argument without a flat byte view; in both
cases the result is an error carrying no platform call. -/
theorem type_error_on_bad_argument (st : TextLogStream) (bs : BinaryLogStream)
    (v w : PyValue) (hv : v.isStr = false) (hw : w.isBytesLike = false) :
    st.writeChecked v =
        Except.error ("write() argument must be str, not " ++ v.typeName) ∧
      bs.writeChecked w =
        Except.error ("write() argument must be bytes-like, not " ++ w.typeName) := by
  constructor
  · cases v <;> simp_all [TextLogStream.writeChecked, PyValue.isStr]
  · cases w <;>
      simp_all [BinaryLogStream.writeChecked, PyValue.isBytesLike, PyValue.asBytes]

/-- C8 witness: the type errors for an `int` text-write argument and a `str`
binary-write argument. -/
theorem type_error_on_bad_argument_witness :
    (PyValue.pyInt 42).isStr = false ∧
      (PyValue.pyStr [104]).isBytesLike = false ∧
      utf8Stream.writeChecked (PyValue.pyInt 42) =
        Except.error ("write() argument must be str, not " ++
          (PyValue.pyInt 42).typeName) ∧
      BinaryLogStream.writeChecked ⟨4, "python.stdout"⟩ (PyValue.pyStr [104]) =
        Except.error ("write() argument must be bytes-like, not " ++
          (PyValue.pyStr [104]).typeName) := by
  obtain ⟨h1, h2⟩ := type_error_on_bad_argument utf8Stream ⟨4, "python.stdout"⟩
    (PyValue.pyInt 42) (PyValue.pyStr [104]) rfl rfl
  exact ⟨rfl, rfl, h1, h2⟩

/-- C9: writing an empty string to a `TextLogStream` in any state and writing
an empty byte block to a `BinaryLogStream` make zero platform calls and leave
the pending buffer and `_pending_bytes_count` unchanged; calling `flush` on a
stream whose pending buffer is empty (and whose count is accordingly zero)
also makes zero platform calls and leaves the state unchanged. -/
theorem empty_write_and_flush_noop (st st2 : TextLogStream)
    (bs : BinaryLogStream)
    (hp : st2.pending_bytes = []) (hc : st2.pending_bytes_count = 0) :
    st.write [] = (st, [], 0) ∧ bs.write [] = ([], 0) ∧ st2.flush = (st2, []) := by
  refine ⟨rfl, rfl, ?_⟩
  obtain ⟨buf, enc, wt, pb, pc⟩ := st2
  simp only at hp hc
  subst hp
  subst hc
  rfl

/-- C9 witness: the empty writes on a stream with a non-empty pending buffer,
and the empty flush on a fresh stream. -/
theorem empty_write_and_flush_noop_witness :
    utf8Stream.pending_bytes = [] ∧
      utf8Stream.pending_bytes_count = 0 ∧
      pendingStream.write [] = (pendingStream, [], 0) ∧
      BinaryLogStream.write ⟨4, "python.stdout"⟩ [] = ([], 0) ∧
      utf8Stream.flush = (utf8Stream, []) := by
  obtain ⟨h1, h2, h3⟩ := empty_write_and_flush_noop pendingStream utf8Stream
    ⟨4, "python.stdout"⟩ rfl rfl
  exact ⟨rfl, rfl, h1, h2, h3⟩

/-- C10: if the platform call raises during `flush`, the pending buffer and
its count are unchanged (they are cleared only after `buffer.write` returns),
and a subsequent flush with a working platform call transmits exactly the
same bytes. -/
theorem failed_flush_preserves_pending (st : TextLogStream)
    (fails : List Nat → Bool)
    (hne : st.pending_bytes.flatten.isEmpty = false)
    (hfail : fails (escapeNulls st.pending_bytes.flatten) = true) :
    (st.flushFallible fails).1 = st ∧
      (st.flushFallible fails).2.1 = [] ∧
      (st.flushFallible fails).2.2 = true ∧
      ((st.flushFallible fails).1.flushFallible fun _ => false).2.1 =
        [⟨st.buffer.prio, st.buffer.tag, escapeNulls st.pending_bytes.flatten⟩] := by
  have h1 : st.flushFallible fails = (st, [], true) := by
    unfold TextLogStream.flushFallible
    simp only []
    split
    · rfl
    · rename_i hcond
      simp [hne, hfail] at hcond
  have h2 : st.flushFallible (fun _ => false) =
      ({st with pending_bytes := [], pending_bytes_count := 0},
        (st.buffer.write st.pending_bytes.flatten).1, false) := by
    unfold TextLogStream.flushFallible
    simp only []
    split
    · rename_i hcond
      simp at hcond
    · rfl
  rw [h1]
  refine ⟨rfl, rfl, rfl, ?_⟩
  show (st.flushFallible fun _ => false).2.1 = _
  rw [h2]
  simp [BinaryLogStream.write, hne]

/-- C10 witness: a failing flush on a stream with `"hi"` pending, then a
successful retry sending the same bytes. -/
theorem failed_flush_preserves_pending_witness :
    pendingStream.pending_bytes.flatten.isEmpty = false ∧
      (fun _ => true : List Nat → Bool)
          (escapeNulls pendingStream.pending_bytes.flatten) = true ∧
      (pendingStream.flushFallible fun _ => true).1 = pendingStream ∧
      (pendingStream.flushFallible fun _ => true).2.1 = [] ∧
      (pendingStream.flushFallible fun _ => true).2.2 = true ∧
      ((pendingStream.flushFallible fun _ => true).1.flushFallible
          fun _ => false).2.1 =
        [⟨pendingStream.buffer.prio, pendingStream.buffer.tag,
          escapeNulls pendingStream.pending_bytes.flatten⟩] := by
  obtain ⟨h1, h2, h3, h4⟩ := failed_flush_preserves_pending pendingStream
    (fun _ => true) rfl rfl
  exact ⟨rfl, rfl, h1, h2, h3, h4⟩

end AndroidSupport
